import Mathlib

/-!
Shallow embedding of the map-generation core of libsdl-demos
(src/src/random.cpp): hex-grid coordinate math, hex distance,
neighbor lookup, Voronoi-style region partitioning, region adjacency,
and greedy terrain coloring.

Machine integers (Sint16, int) are modelled as Int; the Sint16
narrowing conversions that occur in hexDist are made explicit with
toSint16.  C-style truncated division and modulus are Int.tdiv and
Int.tmod.  std::vector values indexed by asserted-in-range indices are
modelled as total functions from Nat.
-/

namespace RandomMap

/-- Point = std::pair of Sint16 coordinates; modelled as a pair of Int. -/
abbrev Point := Int × Int

/-- hMapWidth constant (16). -/
def hMapWidth : Int := 16

/-- hMapHeight constant (9). -/
def hMapHeight : Int := 9

/-- hMapSize = hMapWidth * hMapHeight = 144. -/
def hMapSize : Int := hMapWidth * hMapHeight

/-- numRegions constant (18). -/
def numRegions : Int := 18

/-- numTerrains constant (6). -/
def numTerrains : Int := 6

/-- hInvalid sentinel coordinate. -/
def hInvalid : Point := (-1, -1)

/-- std::numeric_limits of Sint16: max() = 32767. -/
def sint16Max : Int := 32767

/-- Two-s complement narrowing of an int value to Sint16. -/
def toSint16 (n : Int) : Int := (n + 32768) % 65536 - 32768

/-- hexFromAry: linear array index to hex coordinate. -/
def hexFromAry (aIndex : Int) : Point :=
  (Int.tmod aIndex hMapWidth, Int.tdiv aIndex hMapWidth)

/-- aryFromHex: hex coordinate to linear array index. -/
def aryFromHex (hex : Point) : Int := hex.2 * hMapWidth + hex.1

/-- The staggered-axis condition under which hexDist adds a vertical
penalty step. -/
def vPenaltyCond (h1 h2 : Point) : Prop :=
  (h1.2 < h2.2 ∧ Int.tmod h1.1 2 = 0 ∧ Int.tmod h2.1 2 = 1) ∨
  (h1.2 > h2.2 ∧ Int.tmod h1.1 2 = 1 ∧ Int.tmod h2.1 2 = 0)

instance (h1 h2 : Point) : Decidable (vPenaltyCond h1 h2) := by
  unfold vPenaltyCond; infer_instance

/-- hexDist: hex distance (Battle for Wesnoth distance_between).
Returns Sint16 max when either argument is the invalid sentinel.
dx and dy are Sint16 locals, hence the narrowing; dx / 2 is C integer
division (truncation). -/
def hexDist (h1 h2 : Point) : Int :=
  if h1 = hInvalid ∨ h2 = hInvalid then sint16Max
  else
    let dx := toSint16 |h1.1 - h2.1|
    let dy := toSint16 |h1.2 - h2.2|
    let vPenalty : Int := if vPenaltyCond h1 h2 then 1 else 0
    max dx (toSint16 (dy + vPenalty + Int.tdiv dx 2))

/-- aryGetNeighbor: array index of the neighbor tile in direction dir
(0 = north, 1 = northeast, ..., 5 = northwest); -1 when no tile exists
in that direction.  Mirrors the if/else chain of the C++ code; the
nested branches that fall off the chain return -1, exactly as the
final return statement does. -/
def aryGetNeighbor (aIndex dir : Int) : Int :=
  if dir = 0 ∧ aIndex ≥ hMapWidth then
    aIndex - hMapWidth
  else if dir = 1 ∧ Int.tmod aIndex hMapWidth < hMapWidth - 1 then
    (if Int.tmod aIndex 2 = 0 then
      (if aIndex ≥ hMapWidth then aIndex - hMapWidth + 1 else -1)
     else aIndex + 1)
  else if dir = 2 ∧ Int.tmod aIndex hMapWidth < hMapWidth - 1 then
    (if Int.tmod aIndex 2 = 0 then aIndex + 1
     else (if aIndex < hMapSize - hMapWidth then aIndex + hMapWidth + 1 else -1))
  else if dir = 3 ∧ aIndex < hMapSize - hMapWidth then
    aIndex + hMapWidth
  else if dir = 4 ∧ Int.tmod aIndex hMapWidth > 0 then
    (if Int.tmod aIndex 2 = 0 then aIndex - 1
     else (if aIndex < hMapSize - hMapWidth then aIndex + hMapWidth - 1 else -1))
  else if dir = 5 ∧ Int.tmod aIndex hMapWidth > 0 then
    (if Int.tmod aIndex 2 = 0 then
      (if aIndex ≥ hMapWidth then aIndex - hMapWidth - 1 else -1)
     else aIndex - 1)
  else -1

/-- aryNeighbors: all valid neighbors of a tile, in direction order. -/
def aryNeighbors (aIndex : Int) : List Int :=
  ((List.range 6).map (fun dir => aryGetNeighbor aIndex (Int.ofNat dir))).filter
    (fun aNeighbor => aNeighbor ≠ -1)

/-! ## Region partitioner (rFindClosest, hGetCenters, rGenerate) -/

/-- A coordinate that lies on the map. -/
def inGrid (p : Point) : Prop :=
  0 ≤ p.1 ∧ p.1 < hMapWidth ∧ 0 ≤ p.2 ∧ p.2 < hMapHeight

instance (p : Point) : Decidable (inGrid p) := by
  unfold inGrid; infer_instance

/-- State of the rFindClosest loop after scanning candidate regions
0..n-1: the pair (rClosest, bestSoFar). -/
def rFindLoop (p : Point) (hCenters : Nat → Point) : Nat → Int × Int
  | 0 => (-1, sint16Max)
  | n + 1 =>
    let st := rFindLoop p hCenters n
    let dist := hexDist p (hCenters n)
    if dist < st.2 then ((n : Int), dist) else st

/-- rFindClosest: index of the closest region center to (hx, hy), over
the numRegions = 18 candidates; -1 when no candidate distance beats
the initial Sint16 max. -/
def rFindClosest (hx hy : Int) (hCenters : Nat → Point) : Int :=
  (rFindLoop (hx, hy) hCenters 18).1

/-- The (hx, hy) scan order of the accumulation loops in hGetCenters
(outer loop over columns hx, inner loop over rows hy). -/
def cellOrder : List (Nat × Nat) :=
  (List.range 16).flatMap (fun hx => (List.range 9).map (fun hy => (hx, hy)))

/-- One step of the accumulation loops of hGetCenters: add cell
(hx, hy) to its region's coordinate sums (hexSums) and bump its hex
count (numHexes). -/
def accumCell (regions : Nat → Int) (st : (Nat → Point) × (Nat → Int))
    (c : Nat × Nat) : (Nat → Point) × (Nat → Int) :=
  let region := (regions (c.2 * 16 + c.1)).toNat
  (Function.update st.1 region
      ((st.1 region).1 + (c.1 : Int), (st.1 region).2 + (c.2 : Int)),
   Function.update st.2 region (st.2 region + 1))

/-- The hexSums and numHexes vectors after the accumulation loops of
hGetCenters. -/
def accumulate (regions : Nat → Int) : (Nat → Point) × (Nat → Int) :=
  cellOrder.foldl (accumCell regions) ((fun _ => (0, 0)), fun _ => 0)

/-- hGetCenters: the center of mass of each region; a region owning no
hexes keeps the default invalid center. -/
def hGetCenters (regions : Nat → Int) : Nat → Point := fun r =>
  if (accumulate regions).2 r > 0 then
    (Int.tdiv ((accumulate regions).1 r).1 ((accumulate regions).2 r),
     Int.tdiv ((accumulate regions).1 r).2 ((accumulate regions).2 r))
  else hInvalid

/-- One assignment pass of rGenerate: the double loop writes index
hy*hMapWidth+hx with rFindClosest hx hy, so cell a gets
rFindClosest (a mod 16) (a / 16). -/
def assignRegions (hCenters : Nat → Point) : Nat → Int := fun a =>
  rFindClosest ((a % 16 : Nat) : Int) ((a / 16 : Nat) : Int) hCenters

/-- The centers the k-th assignment pass of rGenerate uses (k = 0 is
the initial random seed pass; each further round recomputes the
centers of mass of the previous assignment). -/
def relaxCenters (seeds : Nat → Point) : Nat → (Nat → Point)
  | 0 => seeds
  | k + 1 => hGetCenters (assignRegions (relaxCenters seeds k))

/-- rGenerate, parameterized by the initial random seed centers: four
relaxation rounds followed by the final assignment pass. -/
def rGenerate (seeds : Nat → Point) : Nat → Int :=
  assignRegions (relaxCenters seeds 4)

/-- One further relaxation pass applied to an existing assignment:
recompute centers of mass, then reassign every cell. -/
def rPass (regions : Nat → Int) : Nat → Int :=
  assignRegions (hGetCenters regions)

/-- k relaxation passes applied to an existing assignment. -/
def rPassIter (regions : Nat → Int) : Nat → Nat → Int
  | 0 => regions
  | k + 1 => rPass (rPassIter regions k)

/-- A total region assignment: every cell has a region id in range. -/
def totalAssign (regions : Nat → Int) : Prop :=
  ∀ a < 144, 0 ≤ regions a ∧ regions a < numRegions

/-- Invariant of the hGetCenters accumulation: counts are nonnegative
and each coordinate sum is bounded by the extreme coordinate times the
count. -/
def sumsInv (st : (Nat → Point) × (Nat → Int)) : Prop :=
  ∀ r, 0 ≤ st.2 r ∧ 0 ≤ (st.1 r).1 ∧ (st.1 r).1 ≤ 15 * st.2 r ∧
    0 ≤ (st.1 r).2 ∧ (st.1 r).2 ≤ 8 * st.2 r

/-! ## Terrain colorer (assignTerrain) -/

/-- The assignedTerrains bitset built for one region: bit t gets set
when some listed neighbor already has terrain t (terrain value above
-1). -/
def bitsFor (terrain : Nat → Int) (nbrs : List Int) : Nat → Bool :=
  nbrs.foldl
    (fun bits n =>
      if terrain n.toNat > -1 then
        Function.update bits (terrain n.toNat).toNat true
      else bits)
    (fun _ => false)

/-- The terrain value the loop body stores for a region, given the
neighbor bitset: 0 when all six terrains are taken, otherwise the
first unset terrain (the break in the inner loop); -1 (the unchanged
initial vector value) in the vacuous case where the bitset is not full
yet no bit is unset. -/
def pickTerrain (bits : Nat → Bool) : Int :=
  if (List.range 6).all (fun t => bits t) then 0
  else
    match (List.range 6).find? (fun t => ! bits t) with
    | some t => (t : Int)
    | none => -1

/-- The loop body of assignTerrain for region r. -/
def terrainStep (adj : Nat → List Int) (terrain : Nat → Int) (r : Nat) : Nat → Int :=
  Function.update terrain r (pickTerrain (bitsFor terrain (adj r)))

/-- The terrain vector after the greedy loop of assignTerrain has
processed regions 0..n-1 (all entries start at -1). -/
def assignTerrainUpTo (adj : Nat → List Int) (n : Nat) : Nat → Int :=
  (List.range n).foldl (terrainStep adj) (fun _ => -1)

/-- assignTerrain: greedy coloring over all numRegions = 18 regions in
ascending region-id order. -/
def assignTerrain (adj : Nat → List Int) : Nat → Int :=
  assignTerrainUpTo adj 18

/-- Terrain t is forbidden for region r at the moment region r is
processed: some neighbor with a smaller region id has final terrain
t. -/
def forbidden (adj : Nat → List Int) (r t : Nat) : Prop :=
  ∃ n ∈ adj r, 0 ≤ n ∧ n < (r : Int) ∧ assignTerrain adj n.toNat = (t : Int)

instance (adj : Nat → List Int) (r t : Nat) : Decidable (forbidden adj r t) := by
  unfold forbidden; infer_instance

/-- Adjacency list with a one-directional edge: region 0 lists region
1, but region 1 lists nothing. -/
def adjOneWay : Nat → List Int := fun r => if r = 0 then [1] else []

/-- Adjacency list where only region 1 lists its (lower-id) neighbor
region 0. -/
def adjBackward : Nat → List Int := fun r => if r = 1 then [0] else []

/-- Adjacency list where region 2 lists regions 0 and 1. -/
def adjTwo : Nat → List Int := fun r => if r = 2 then [0, 1] else []

/-- Adjacency list with no edges at all. -/
def adjEmpty : Nat → List Int := fun _ => []

/-! ## Adjacency builder (regionNeighbors) -/

/-- The inner loop body of regionNeighbors: record the neighboring
cell's region for the current cell's region reg, unless it is reg
itself or already recorded. -/
def adjStep (regions : Nat → Int) (reg : Int) (ret2 : Nat → List Int)
    (an : Int) : Nat → List Int :=
  if regions an.toNat ≠ reg ∧ regions an.toNat ∉ ret2 reg.toNat then
    Function.update ret2 reg.toNat (ret2 reg.toNat ++ [regions an.toNat])
  else ret2

/-- regionNeighbors: scan every cell and record, per region, the
distinct neighboring regions in discovery order. -/
def regionNeighbors (regions : Nat → Int) : Nat → List Int :=
  (List.range 144).foldl
    (fun ret (i : Nat) => (aryNeighbors (i : Int)).foldl (adjStep regions (regions i)) ret)
    (fun _ => [])

/-- Well-formedness of an adjacency accumulator: no region lists
itself and no region lists a neighbor twice. -/
def adjWellFormed (ret : Nat → List Int) : Prop :=
  ∀ q, (q : Int) ∉ ret q ∧ (ret q).Nodup

/-! ## Lemmas and claim theorems -/

-- Regression values checked by the asserts at the end of SDL_main.
example : hexDist (1, 1) (2, 2) = 1 := by decide
example : hexDist (4, 4) (3, 3) = 1 := by decide
example : hexDist (1, 1) (3, 3) = 3 := by decide
example : hexDist (7, 7) (5, 5) = 3 := by decide

example : aryNeighbors 0 = [1, 16] := by decide
example : aryNeighbors 17 = [1, 18, 34, 33, 32, 16] := by decide

lemma vPenaltyCond_symm (a b : Point) : vPenaltyCond a b ↔ vPenaltyCond b a := by
  unfold vPenaltyCond
  simp only [gt_iff_lt]
  tauto

/-- C4: the hex distance function is symmetric, and whenever either
argument is the invalid sentinel coordinate the result is the maximum
representable Sint16 distance value. -/
theorem hexDist_symm_sentinel_C4 :
    (∀ a b : Point, hexDist a b = hexDist b a) ∧
    (∀ p : Point, hexDist hInvalid p = sint16Max ∧ hexDist p hInvalid = sint16Max) := by
  constructor
  · intro a b
    unfold hexDist
    by_cases h : a = hInvalid ∨ b = hInvalid
    · rw [if_pos h, if_pos (Or.symm h)]
    · rw [if_neg h, if_neg (fun hc => h (Or.symm hc))]
      dsimp only
      rw [abs_sub_comm a.1 b.1, abs_sub_comm a.2 b.2]
      simp only [vPenaltyCond_symm a b]
  · intro p
    refine ⟨?_, ?_⟩ <;> (unfold hexDist; rw [if_pos]; simp)

set_option maxRecDepth 10000 in
set_option maxHeartbeats 4000000 in
/-- C5: the cell-neighbor relation is symmetric: for every valid cell
index c and direction d, if aryGetNeighbor returns a valid cell n then
c is the neighbor of n in the opposite direction (d+3) mod 6, and c
appears in aryNeighbors n. -/
theorem aryGetNeighbor_symm_C5 :
    ∀ c < 144, ∀ d < 6,
      aryGetNeighbor (Int.ofNat c) (Int.ofNat d) ≠ -1 →
      aryGetNeighbor (aryGetNeighbor (Int.ofNat c) (Int.ofNat d))
          (Int.ofNat ((d + 3) % 6)) = Int.ofNat c ∧
      Int.ofNat c ∈ aryNeighbors (aryGetNeighbor (Int.ofNat c) (Int.ofNat d)) := by
  decide

theorem aryGetNeighbor_symm_C5_witness :
    aryGetNeighbor (aryGetNeighbor (Int.ofNat 17) (Int.ofNat 1))
        (Int.ofNat ((1 + 3) % 6)) = Int.ofNat 17 ∧
    Int.ofNat 17 ∈ aryNeighbors (aryGetNeighbor (Int.ofNat 17) (Int.ofNat 1)) :=
  aryGetNeighbor_symm_C5 17 (by decide) 1 (by decide) (by decide)

set_option maxRecDepth 2000 in
/-- C6: linear index and hex coordinate conversions are mutually
inverse bijections on the valid ranges. -/
theorem hexFromAry_aryFromHex_bijection_C6 :
    (∀ i < 144, aryFromHex (hexFromAry (Int.ofNat i)) = Int.ofNat i) ∧
    (∀ hx < 16, ∀ hy < 9,
      hexFromAry (aryFromHex (Int.ofNat hx, Int.ofNat hy)) =
        (Int.ofNat hx, Int.ofNat hy)) := by
  decide

theorem hexFromAry_aryFromHex_bijection_C6_witness :
    aryFromHex (hexFromAry (Int.ofNat 37)) = Int.ofNat 37 ∧
    hexFromAry (aryFromHex (Int.ofNat 5, Int.ofNat 2)) = (Int.ofNat 5, Int.ofNat 2) :=
  ⟨hexFromAry_aryFromHex_bijection_C6.1 37 (by decide),
   hexFromAry_aryFromHex_bijection_C6.2 5 (by decide) 2 (by decide)⟩

set_option maxRecDepth 10000 in
set_option maxHeartbeats 4000000 in
/-- C9: for every valid cell and each diagonal direction (NE = 1,
SE = 2, SW = 4, NW = 5), a returned neighbor lies in the adjacent
column (east for NE/SE, west for SW/NW) and its row offset is
determined by the parity of the cell's column: even columns shift one
row up for NE/NW and stay for SE/SW; odd columns stay for NE/NW and
shift one row down for SE/SW. -/
theorem aryGetNeighbor_diagonal_offsets_C9 :
    ∀ c < 144, ∀ d < 6,
      ((d = 1 ∨ d = 2 ∨ d = 4 ∨ d = 5) ∧
        aryGetNeighbor (Int.ofNat c) (Int.ofNat d) ≠ -1) →
      (hexFromAry (aryGetNeighbor (Int.ofNat c) (Int.ofNat d))).1 =
        (hexFromAry (Int.ofNat c)).1 + (if d = 1 ∨ d = 2 then 1 else -1) ∧
      (hexFromAry (aryGetNeighbor (Int.ofNat c) (Int.ofNat d))).2 =
        (hexFromAry (Int.ofNat c)).2 +
          (if Int.tmod (hexFromAry (Int.ofNat c)).1 2 = 0 then
            (if d = 1 ∨ d = 5 then -1 else 0)
           else (if d = 2 ∨ d = 4 then 1 else 0)) := by
  decide

theorem aryGetNeighbor_diagonal_offsets_C9_witness :
    (hexFromAry (aryGetNeighbor (Int.ofNat 17) (Int.ofNat 2))).1 =
      (hexFromAry (Int.ofNat 17)).1 + (if (2 : Nat) = 1 ∨ (2 : Nat) = 2 then 1 else -1) ∧
    (hexFromAry (aryGetNeighbor (Int.ofNat 17) (Int.ofNat 2))).2 =
      (hexFromAry (Int.ofNat 17)).2 +
        (if Int.tmod (hexFromAry (Int.ofNat 17)).1 2 = 0 then
          (if (2 : Nat) = 1 ∨ (2 : Nat) = 5 then -1 else 0)
         else (if (2 : Nat) = 2 ∨ (2 : Nat) = 4 then 1 else 0)) :=
  aryGetNeighbor_diagonal_offsets_C9 17 (by decide) 2 (by decide) (by decide)

lemma toSint16_eq_self (n : Int) (h1 : -32768 ≤ n) (h2 : n < 32768) :
    toSint16 n = n := by
  unfold toSint16; omega

lemma hexDist_invalid_right (p : Point) : hexDist p hInvalid = sint16Max := by
  unfold hexDist; rw [if_pos (Or.inr rfl)]

lemma hexDist_lt_max {p q : Point} (hp : inGrid p) (hq : inGrid q) :
    hexDist p q < sint16Max := by
  obtain ⟨hp1, hp2, hp3, hp4⟩ := hp
  obtain ⟨hq1, hq2, hq3, hq4⟩ := hq
  unfold hMapWidth hMapHeight at *
  have hne : ¬(p = hInvalid ∨ q = hInvalid) := by
    rintro (h | h) <;> (rw [Prod.ext_iff] at h; unfold hInvalid at h; omega)
  unfold hexDist
  rw [if_neg hne]
  dsimp only
  have hdx : 0 ≤ |p.1 - q.1| ∧ |p.1 - q.1| ≤ 15 := by
    refine ⟨abs_nonneg _, ?_⟩
    rcases abs_cases (p.1 - q.1) with ⟨h, _⟩ | ⟨h, _⟩ <;> (rw [h]; omega)
  have hdy : 0 ≤ |p.2 - q.2| ∧ |p.2 - q.2| ≤ 8 := by
    refine ⟨abs_nonneg _, ?_⟩
    rcases abs_cases (p.2 - q.2) with ⟨h, _⟩ | ⟨h, _⟩ <;> (rw [h]; omega)
  have hpen : (0 : Int) ≤ (if vPenaltyCond p q then 1 else 0) ∧
      (if vPenaltyCond p q then (1 : Int) else 0) ≤ 1 := by
    split <;> omega
  rw [toSint16_eq_self |p.1 - q.1| (by omega) (by omega),
      toSint16_eq_self |p.2 - q.2| (by omega) (by omega),
      Int.tdiv_eq_ediv hdx.1 (by norm_num),
      toSint16_eq_self (|p.2 - q.2| + (if vPenaltyCond p q then 1 else 0) + |p.1 - q.1| / 2)
        (by omega) (by omega)]
  unfold sint16Max
  apply max_lt (by omega) (by omega)

lemma rFindLoop_inv (p : Point) (cs : Nat → Point) (n : Nat) :
    (rFindLoop p cs n).2 ≤ sint16Max ∧
    (((rFindLoop p cs n).1 = -1 ∧ (rFindLoop p cs n).2 = sint16Max) ∨
      (∃ j, j < n ∧ (rFindLoop p cs n).1 = (j : Int) ∧
        (rFindLoop p cs n).2 = hexDist p (cs j) ∧
        (rFindLoop p cs n).2 < sint16Max)) ∧
    (∀ j, j < n → (rFindLoop p cs n).2 ≤ hexDist p (cs j)) := by
  induction n with
  | zero =>
    refine ⟨le_refl _, Or.inl ⟨rfl, rfl⟩, ?_⟩
    intro j hj
    exact absurd hj (Nat.not_lt_zero j)
  | succ n ih =>
    obtain ⟨ih1, ih2, ih3⟩ := ih
    simp only [rFindLoop]
    by_cases hlt : hexDist p (cs n) < (rFindLoop p cs n).2
    · rw [if_pos hlt]
      refine ⟨by omega, Or.inr ⟨n, by omega, rfl, rfl, by omega⟩, ?_⟩
      intro j hj
      rcases Nat.lt_succ_iff_lt_or_eq.mp hj with h | h
      · have := ih3 j h
        dsimp only
        omega
      · subst h
        exact le_refl _
    · rw [if_neg hlt]
      refine ⟨ih1, ?_, ?_⟩
      · rcases ih2 with h | ⟨j, hj, h⟩
        · exact Or.inl h
        · exact Or.inr ⟨j, by omega, h⟩
      · intro j hj
        rcases Nat.lt_succ_iff_lt_or_eq.mp hj with h | h
        · exact ih3 j h
        · subst h
          omega

lemma rFindClosest_range {hx hy : Int} {cs : Nat → Point}
    (h : ∃ j, j < 18 ∧ hexDist (hx, hy) (cs j) < sint16Max) :
    0 ≤ rFindClosest hx hy cs ∧ rFindClosest hx hy cs < numRegions := by
  obtain ⟨j, hj, hdist⟩ := h
  obtain ⟨inv1, inv2, inv3⟩ := rFindLoop_inv (hx, hy) cs 18
  unfold rFindClosest
  rcases inv2 with ⟨h1, h2⟩ | ⟨i, hi, h1, h2, h3⟩
  · have := inv3 j hj
    omega
  · rw [h1]
    unfold numRegions
    omega

lemma rFindClosest_ne_empty {hx hy : Int} {cs : Nat → Point} {r : Nat}
    (hr : cs r = hInvalid) : rFindClosest hx hy cs ≠ (r : Int) := by
  intro heq
  obtain ⟨inv1, inv2, inv3⟩ := rFindLoop_inv (hx, hy) cs 18
  unfold rFindClosest at heq
  rcases inv2 with ⟨h1, _⟩ | ⟨i, hi, h1, h2, h3⟩
  · rw [h1] at heq
    omega
  · rw [h1] at heq
    have hir : i = r := by omega
    rw [hir, hr, hexDist_invalid_right] at h2
    omega

lemma inGrid_cell {a : Nat} (ha : a < 144) :
    inGrid (((a % 16 : Nat) : Int), ((a / 16 : Nat) : Int)) := by
  unfold inGrid hMapWidth hMapHeight
  dsimp only
  omega

lemma assignRegions_total {cs : Nat → Point} (h : ∃ j, j < 18 ∧ inGrid (cs j)) :
    totalAssign (assignRegions cs) := by
  intro a ha
  obtain ⟨j, hj, hg⟩ := h
  exact rFindClosest_range ⟨j, hj, hexDist_lt_max (inGrid_cell ha) hg⟩

lemma accum_inv (regions : Nat → Int) (L : List (Nat × Nat))
    (hL : ∀ c ∈ L, c.1 ≤ 15 ∧ c.2 ≤ 8) :
    ∀ st, sumsInv st → sumsInv (L.foldl (accumCell regions) st) := by
  induction L with
  | nil => intro st hst; exact hst
  | cons c L ih =>
    intro st hst
    simp only [List.foldl_cons]
    apply ih (fun x hx => hL x (List.mem_cons_of_mem _ hx))
    intro r
    have hc := hL c (List.mem_cons_self c L)
    have hr := hst ((regions (c.2 * 16 + c.1)).toNat)
    have hr2 := hst r
    unfold accumCell
    dsimp only
    rw [Function.update_apply, Function.update_apply]
    split <;> rename_i hcase
    · subst hcase
      dsimp only
      omega
    · exact hr2

lemma accum_mono (regions : Nat → Int) (L : List (Nat × Nat)) (r : Nat) :
    ∀ st, st.2 r ≤ (L.foldl (accumCell regions) st).2 r := by
  induction L with
  | nil => intro st; exact le_refl _
  | cons c L ih =>
    intro st
    simp only [List.foldl_cons]
    refine le_trans ?_ (ih (accumCell regions st c))
    unfold accumCell
    dsimp only
    rw [Function.update_apply]
    split <;> rename_i hcase
    · subst hcase
      omega
    · exact le_refl _

lemma accum_nonneg (regions : Nat → Int) (st : (Nat → Point) × (Nat → Int))
    (c : Nat × Nat) (h : ∀ q, 0 ≤ st.2 q) : ∀ q, 0 ≤ (accumCell regions st c).2 q := by
  intro q
  unfold accumCell
  dsimp only
  rw [Function.update_apply]
  split <;> rename_i hcase
  · have := h ((regions (c.2 * 16 + c.1)).toNat)
    omega
  · exact h q

lemma accum_count_pos (regions : Nat → Int) (L : List (Nat × Nat)) (c : Nat × Nat) :
    ∀ st, c ∈ L → (∀ q, 0 ≤ st.2 q) →
      1 ≤ (L.foldl (accumCell regions) st).2 ((regions (c.2 * 16 + c.1)).toNat) := by
  induction L with
  | nil =>
    intro st hc
    exact absurd hc (List.not_mem_nil c)
  | cons b L ih =>
    intro st hc hnn
    simp only [List.foldl_cons]
    rcases List.mem_cons.mp hc with h | h
    · subst h
      refine le_trans ?_ (accum_mono regions L _ _)
      unfold accumCell
      dsimp only
      rw [Function.update_apply, if_pos rfl]
      have := hnn ((regions (c.2 * 16 + c.1)).toNat)
      omega
    · exact ih _ h (accum_nonneg regions st b hnn)

lemma accum_untouched (regions : Nat → Int) (L : List (Nat × Nat)) (r : Nat)
    (h : ∀ c ∈ L, (regions (c.2 * 16 + c.1)).toNat ≠ r) :
    ∀ st, (L.foldl (accumCell regions) st).2 r = st.2 r := by
  induction L with
  | nil => intro st; rfl
  | cons c L ih =>
    intro st
    simp only [List.foldl_cons]
    rw [ih (fun x hx => h x (List.mem_cons_of_mem _ hx))]
    unfold accumCell
    dsimp only
    rw [Function.update_apply, if_neg]
    exact fun hcase => h c (List.mem_cons_self c L) hcase.symm

set_option maxRecDepth 4000 in
lemma cellOrder_bounds : ∀ c ∈ cellOrder, c.1 ≤ 15 ∧ c.2 ≤ 8 := by decide

set_option maxRecDepth 4000 in
lemma cellOrder_idx_lt : ∀ c ∈ cellOrder, c.2 * 16 + c.1 < 144 := by decide

set_option maxRecDepth 4000 in
lemma cellOrder_mem_00 : ((0 : Nat), (0 : Nat)) ∈ cellOrder := by decide

lemma accumulate_inv (regions : Nat → Int) : sumsInv (accumulate regions) := by
  apply accum_inv regions cellOrder cellOrder_bounds
  intro r
  refine ⟨le_refl _, le_refl _, ?_, le_refl _, ?_⟩ <;> simp

lemma hGetCenters_inGrid {regions : Nat → Int} {r : Nat}
    (hpos : 1 ≤ (accumulate regions).2 r) : inGrid (hGetCenters regions r) := by
  have hinv := accumulate_inv regions r
  unfold hGetCenters
  rw [if_pos (by omega)]
  obtain ⟨hc, hx0, hx1, hy0, hy1⟩ := hinv
  rw [Int.tdiv_eq_ediv hx0 (by omega), Int.tdiv_eq_ediv hy0 (by omega)]
  have hxd : ((accumulate regions).1 r).1 / (accumulate regions).2 r ≤ 15 := by
    calc ((accumulate regions).1 r).1 / (accumulate regions).2 r
        ≤ 15 * (accumulate regions).2 r / (accumulate regions).2 r :=
          Int.ediv_le_ediv (by omega) hx1
      _ = 15 := Int.mul_ediv_cancel 15 (by omega)
  have hyd : ((accumulate regions).1 r).2 / (accumulate regions).2 r ≤ 8 := by
    calc ((accumulate regions).1 r).2 / (accumulate regions).2 r
        ≤ 8 * (accumulate regions).2 r / (accumulate regions).2 r :=
          Int.ediv_le_ediv (by omega) hy1
      _ = 8 := Int.mul_ediv_cancel 8 (by omega)
  have hxn : 0 ≤ ((accumulate regions).1 r).1 / (accumulate regions).2 r :=
    Int.ediv_nonneg hx0 (by omega)
  have hyn : 0 ≤ ((accumulate regions).1 r).2 / (accumulate regions).2 r :=
    Int.ediv_nonneg hy0 (by omega)
  unfold inGrid hMapWidth hMapHeight
  dsimp only
  omega

lemma exists_center_inGrid {regions : Nat → Int} (htot : totalAssign regions) :
    ∃ j, j < 18 ∧ inGrid (hGetCenters regions j) := by
  have h0 := htot 0 (by norm_num)
  unfold numRegions at h0
  refine ⟨(regions 0).toNat, by omega, ?_⟩
  apply hGetCenters_inGrid
  have heq : ((0 : Nat), (0 : Nat)).2 * 16 + ((0 : Nat), (0 : Nat)).1 = 0 := rfl
  have := accum_count_pos regions cellOrder ((0 : Nat), (0 : Nat))
    ((fun _ => (0, 0)), fun _ => 0) cellOrder_mem_00 (fun q => le_refl 0)
  rw [heq] at this
  exact this

lemma hGetCenters_empty {regions : Nat → Int} {r : Nat}
    (htot : totalAssign regions) (hempty : ∀ a < 144, regions a ≠ (r : Int)) :
    hGetCenters regions r = hInvalid := by
  have hneq : ∀ c ∈ cellOrder, (regions (c.2 * 16 + c.1)).toNat ≠ r := by
    intro c hc
    have hidx := cellOrder_idx_lt c hc
    have h1 := htot _ hidx
    have h2 := hempty _ hidx
    unfold numRegions at h1
    omega
  have hzero : (accumulate regions).2 r = 0 := by
    unfold accumulate
    rw [accum_untouched regions cellOrder r hneq _]
  unfold hGetCenters
  rw [if_neg (by omega)]

lemma relaxCenters_good (seeds : Nat → Point)
    (hseeds : ∀ i < 18, inGrid (seeds i)) :
    ∀ k, ∃ j, j < 18 ∧ inGrid (relaxCenters seeds k j) := by
  intro k
  induction k with
  | zero => exact ⟨0, by norm_num, hseeds 0 (by norm_num)⟩
  | succ k ih =>
    simp only [relaxCenters]
    exact exists_center_inGrid (assignRegions_total ih)

/-- C1: for every sequence of in-grid initial seed points, rGenerate
returns a total assignment: every cell index below hMapSize gets
exactly one region id in [0, numRegions); in particular the closest
center search never returns -1. -/
theorem rGenerate_total_C1 (seeds : Nat → Point)
    (hseeds : ∀ i < 18, inGrid (seeds i)) :
    ∀ a < 144, 0 ≤ rGenerate seeds a ∧ rGenerate seeds a < numRegions :=
  assignRegions_total (relaxCenters_good seeds hseeds 4)

theorem rGenerate_total_C1_witness :
    0 ≤ rGenerate (fun _ => ((0 : Int), (0 : Int))) 7 ∧
    rGenerate (fun _ => ((0 : Int), (0 : Int))) 7 < numRegions :=
  rGenerate_total_C1 (fun _ => ((0 : Int), (0 : Int)))
    (by intro i hi; show inGrid ((0 : Int), (0 : Int)); decide) 7 (by norm_num)

/-- C8: once a region owns zero cells in a total assignment, its
recomputed center of mass is the invalid sentinel, the strictly-less
closest-center comparison never selects it for any cell, and it owns
zero cells after every number of further relaxation passes (which also
stay total). -/
theorem empty_region_stays_empty_C8 (regions : Nat → Int) (r : Nat)
    (htot : totalAssign regions) (_hr : r < 18)
    (hempty : ∀ a < 144, regions a ≠ (r : Int)) :
    hGetCenters regions r = hInvalid ∧
    (∀ hx hy : Int, rFindClosest hx hy (hGetCenters regions) ≠ (r : Int)) ∧
    (∀ k, totalAssign (rPassIter regions k) ∧
      ∀ a < 144, rPassIter regions k a ≠ (r : Int)) := by
  have main : ∀ k, totalAssign (rPassIter regions k) ∧
      ∀ a < 144, rPassIter regions k a ≠ (r : Int) := by
    intro k
    induction k with
    | zero => exact ⟨htot, hempty⟩
    | succ k ih =>
      have hcenk : hGetCenters (rPassIter regions k) r = hInvalid :=
        hGetCenters_empty ih.1 ih.2
      constructor
      · simp only [rPassIter, rPass]
        exact assignRegions_total (exists_center_inGrid ih.1)
      · intro a ha
        simp only [rPassIter, rPass, assignRegions]
        exact rFindClosest_ne_empty hcenk
  refine ⟨hGetCenters_empty htot hempty, ?_, main⟩
  intro hx hy
  exact rFindClosest_ne_empty (hGetCenters_empty htot hempty)

theorem empty_region_stays_empty_C8_witness :
    hGetCenters (fun _ => 0) 1 = hInvalid ∧
    rFindClosest 3 4 (hGetCenters (fun _ => 0)) ≠ ((1 : Nat) : Int) ∧
    rPassIter (fun _ => 0) 2 10 ≠ ((1 : Nat) : Int) := by
  have h := empty_region_stays_empty_C8 (fun _ => 0) 1
    (by intro a ha; unfold numRegions; norm_num)
    (by norm_num)
    (by intro a ha; norm_num)
  exact ⟨h.1, h.2.1 3 4, (h.2.2 2).2 10 (by norm_num)⟩

lemma assignTerrainUpTo_succ (adj : Nat → List Int) (n : Nat) :
    assignTerrainUpTo adj (n + 1) = terrainStep adj (assignTerrainUpTo adj n) n := by
  unfold assignTerrainUpTo
  rw [List.range_succ, List.foldl_append]
  rfl

lemma assignTerrainUpTo_ge (adj : Nat → List Int) :
    ∀ n i, n ≤ i → assignTerrainUpTo adj n i = -1 := by
  intro n
  induction n with
  | zero => intro i _; rfl
  | succ n ih =>
    intro i hi
    rw [assignTerrainUpTo_succ]
    unfold terrainStep
    rw [Function.update_apply, if_neg (by omega)]
    exact ih i (by omega)

lemma assignTerrainUpTo_lt (adj : Nat → List Int) :
    ∀ {n i : Nat}, i < n →
      assignTerrainUpTo adj n i =
        pickTerrain (bitsFor (assignTerrainUpTo adj i) (adj i)) := by
  intro n
  induction n with
  | zero => intro i hi; exact absurd hi (Nat.not_lt_zero i)
  | succ n ih =>
    intro i hi
    rw [assignTerrainUpTo_succ]
    unfold terrainStep
    rw [Function.update_apply]
    split <;> rename_i hcase
    · subst hcase; rfl
    · exact ih (by omega)

lemma find?_range_eq_some (q : Nat → Bool) :
    ∀ n t : Nat, t < n → q t = true → (∀ s < t, q s = false) →
      (List.range n).find? q = some t := by
  intro n
  induction n with
  | zero => intro t ht; exact absurd ht (Nat.not_lt_zero t)
  | succ n ih =>
    intro t ht hq hmin
    rw [List.range_succ, List.find?_append]
    rcases Nat.lt_succ_iff_lt_or_eq.mp ht with h | h
    · rw [ih t h hq hmin]
      rfl
    · subst h
      have hnone : (List.range t).find? q = none := by
        rw [List.find?_eq_none]
        intro x hx
        rw [List.mem_range] at hx
        simp [hmin x hx]
      rw [hnone]
      simp [List.find?, hq]

lemma pickTerrain_range (bits : Nat → Bool) :
    0 ≤ pickTerrain bits ∧ pickTerrain bits < 6 := by
  unfold pickTerrain
  split <;> rename_i hall
  · norm_num
  · cases hfind : (List.range 6).find? (fun t => ! bits t) with
    | some t =>
      have := List.mem_range.mp (List.mem_of_find?_eq_some hfind)
      dsimp only
      omega
    | none =>
      exfalso
      rw [List.find?_eq_none] at hfind
      apply hall
      rw [List.all_eq_true]
      intro x hx
      have := hfind x hx
      simp at this
      exact this

lemma pickTerrain_of_first_unset {bits : Nat → Bool} {t : Nat} (ht : t < 6)
    (hunset : bits t = false) (hbelow : ∀ s < t, bits s = true) :
    pickTerrain bits = (t : Int) := by
  have hnall : ¬((List.range 6).all (fun s => bits s) = true) := by
    rw [List.all_eq_true]
    intro hall
    have h2 := hall t (List.mem_range.mpr ht)
    rw [hunset] at h2
    exact Bool.false_ne_true h2
  have hfind : (List.range 6).find? (fun s => ! bits s) = some t :=
    find?_range_eq_some _ 6 t ht (by simp [hunset]) (fun s hs => by simp [hbelow s hs])
  unfold pickTerrain
  rw [if_neg hnall, hfind]

lemma assignTerrain_val (adj : Nat → List Int) {r : Nat} (hr : r < 18) :
    assignTerrain adj r =
      pickTerrain (bitsFor (assignTerrainUpTo adj r) (adj r)) := by
  unfold assignTerrain
  exact assignTerrainUpTo_lt adj hr

lemma assignTerrain_range (adj : Nat → List Int) {r : Nat} (hr : r < 18) :
    0 ≤ assignTerrain adj r ∧ assignTerrain adj r < 6 := by
  rw [assignTerrain_val adj hr]
  exact pickTerrain_range _

lemma bitsFor_aux (terrain : Nat → Int) (nbrs : List Int) (t : Nat) :
    ∀ bits : Nat → Bool,
      (nbrs.foldl
        (fun bits n =>
          if terrain n.toNat > -1 then
            Function.update bits (terrain n.toNat).toNat true
          else bits) bits) t = true ↔
      bits t = true ∨
        ∃ n ∈ nbrs, terrain n.toNat > -1 ∧ (terrain n.toNat).toNat = t := by
  induction nbrs with
  | nil => intro bits; simp
  | cons m nbrs ih =>
    intro bits
    simp only [List.foldl_cons]
    rw [ih]
    constructor
    · rintro (hb | hex)
      · by_cases hm : terrain m.toNat > -1
        · rw [if_pos hm, Function.update_apply] at hb
          by_cases hts : t = (terrain m.toNat).toNat
          · exact Or.inr ⟨m, List.mem_cons_self m nbrs, hm, hts.symm⟩
          · rw [if_neg hts] at hb
            exact Or.inl hb
        · rw [if_neg hm] at hb
          exact Or.inl hb
      · obtain ⟨n, hn, h⟩ := hex
        exact Or.inr ⟨n, List.mem_cons_of_mem m hn, h⟩
    · rintro (hb | ⟨n, hn, h1, h2⟩)
      · left
        by_cases hm : terrain m.toNat > -1
        · rw [if_pos hm, Function.update_apply]
          by_cases hts : t = (terrain m.toNat).toNat
          · rw [if_pos hts]
          · rw [if_neg hts]
            exact hb
        · rw [if_neg hm]
          exact hb
      · rcases List.mem_cons.mp hn with heq | hn2
        · left
          subst heq
          rw [if_pos h1, Function.update_apply, if_pos h2.symm]
        · exact Or.inr ⟨n, hn2, h1, h2⟩

lemma bitsFor_spec (terrain : Nat → Int) (nbrs : List Int) (t : Nat) :
    bitsFor terrain nbrs t = true ↔
      ∃ n ∈ nbrs, terrain n.toNat > -1 ∧ (terrain n.toNat).toNat = t := by
  unfold bitsFor
  rw [bitsFor_aux]
  simp

lemma bitsFor_at {adj : Nat → List Int} {r : Nat}
    (hwf : ∀ n ∈ adj r, 0 ≤ n ∧ n < 18) (t : Nat) :
    bitsFor (assignTerrainUpTo adj r) (adj r) t = true ↔ forbidden adj r t := by
  rw [bitsFor_spec]
  constructor
  · rintro ⟨n, hn, hgt, htn⟩
    obtain ⟨hn0, hn18⟩ := hwf n hn
    have hlt : n.toNat < r := by
      by_contra hge
      rw [assignTerrainUpTo_ge adj r n.toNat (by omega)] at hgt
      omega
    have hval : assignTerrainUpTo adj r n.toNat =
        pickTerrain (bitsFor (assignTerrainUpTo adj n.toNat) (adj n.toNat)) :=
      assignTerrainUpTo_lt adj hlt
    have hfin : assignTerrain adj n.toNat = assignTerrainUpTo adj r n.toNat := by
      rw [assignTerrain_val adj (show n.toNat < 18 by omega), hval]
    refine ⟨n, hn, hn0, by omega, ?_⟩
    rw [hfin]
    omega
  · rintro ⟨n, hn, hn0, hnr, hfin⟩
    have hlt : n.toNat < r := by omega
    have h18 : n.toNat < 18 := by
      have := hwf n hn
      omega
    have hval : assignTerrainUpTo adj r n.toNat = assignTerrain adj n.toNat := by
      rw [assignTerrain_val adj h18]
      exact assignTerrainUpTo_lt adj hlt
    have hrange := assignTerrain_range adj h18
    refine ⟨n, hn, ?_, ?_⟩
    · rw [hval, hfin]
      omega
    · rw [hval, hfin]
      omega

/-- C3: assignTerrain processes regions in ascending id order, and a
region gets the lowest terrain id not used by any already-assigned
neighbor, which are exactly its neighbors with smaller region id: if
terrain t is the least id not forbidden by the lower-id neighbors of
region r (under the final assignment), then region r receives t. -/
theorem assignTerrain_lowest_C3 (adj : Nat → List Int)
    (hwf : ∀ r < 18, ∀ n ∈ adj r, 0 ≤ n ∧ n < 18) (r : Nat) (hr : r < 18)
    (t : Nat) (ht : t < 6) (hfree : ¬ forbidden adj r t)
    (hmin : ∀ s < t, forbidden adj r s) :
    assignTerrain adj r = (t : Int) := by
  rw [assignTerrain_val adj hr]
  apply pickTerrain_of_first_unset ht
  · cases hbt : bitsFor (assignTerrainUpTo adj r) (adj r) t
    · rfl
    · exact absurd ((bitsFor_at (hwf r hr) t).mp hbt) hfree
  · intro s hs
    exact (bitsFor_at (hwf r hr) s).mpr (hmin s hs)

theorem assignTerrain_lowest_C3_witness :
    assignTerrain adjTwo 2 = ((1 : Nat) : Int) :=
  assignTerrain_lowest_C3 adjTwo (by decide) 2 (by norm_num) 1 (by norm_num)
    (by decide) (by decide)

/-- C2 counterexample: the claim quantifies over every adjacency list,
but with the one-directional list where region 0 alone lists region 1
as its neighbor, the two adjacent regions 0 and 1 both receive terrain
0 although at the moment the later region 1 was assigned not every
terrain id was used by its listed neighbors (it lists none). -/
theorem assignTerrain_clash_C2_counterexample :
    (1 : Int) ∈ adjOneWay 0 ∧
    assignTerrain adjOneWay 0 = assignTerrain adjOneWay 1 ∧
    ¬ (∀ t < 6, bitsFor (assignTerrainUpTo adjOneWay 1) (adjOneWay 1) t = true) := by
  decide

/-- C2 (amended): for every adjacency list whose entries pass the
asserted bounds, and every adjacent pair in which the later-processed
region lists the earlier one as a neighbor, the two regions receive
different terrains unless at the moment the later region was assigned
every one of the six terrain ids was already used by one of its
lower-id neighbors. -/
theorem assignTerrain_adjacent_distinct_C2 (adj : Nat → List Int)
    (hwf : ∀ r < 18, ∀ n ∈ adj r, 0 ≤ n ∧ n < 18) (r1 r2 : Nat)
    (h12 : r1 < r2) (hr2 : r2 < 18) (hmem : (r1 : Int) ∈ adj r2) :
    assignTerrain adj r1 ≠ assignTerrain adj r2 ∨
      (∀ t < 6, forbidden adj r2 t) := by
  by_cases hall : ∀ t < 6, bitsFor (assignTerrainUpTo adj r2) (adj r2) t = true
  · right
    intro t ht
    exact (bitsFor_at (hwf r2 hr2) t).mp (hall t ht)
  · left
    have hr1 : r1 < 18 := by omega
    have hrange1 := assignTerrain_range adj hr1
    have hb1 : bitsFor (assignTerrainUpTo adj r2) (adj r2)
        (assignTerrain adj r1).toNat = true := by
      apply (bitsFor_at (hwf r2 hr2) _).mpr
      refine ⟨(r1 : Int), hmem, by omega, by omega, ?_⟩
      rw [Int.toNat_natCast, Int.toNat_of_nonneg hrange1.1]
    cases hfind : (List.range 6).find? (fun s => ! bitsFor (assignTerrainUpTo adj r2) (adj r2) s) with
    | none =>
      exfalso
      rw [List.find?_eq_none] at hfind
      apply hall
      intro t ht
      have := hfind t (List.mem_range.mpr ht)
      simp at this
      exact this
    | some t0 =>
      have ht0 : bitsFor (assignTerrainUpTo adj r2) (adj r2) t0 = false := by
        have := List.find?_some hfind
        simp at this
        exact this
      have hval2 : assignTerrain adj r2 = (t0 : Int) := by
        rw [assignTerrain_val adj hr2]
        unfold pickTerrain
        rw [if_neg ?_, hfind]
        rw [List.all_eq_true]
        intro hcontra
        apply hall
        intro t ht
        exact hcontra t (List.mem_range.mpr ht)
      intro heq
      rw [heq, hval2] at hb1
      rw [Int.toNat_natCast] at hb1
      rw [ht0] at hb1
      exact Bool.false_ne_true hb1

theorem assignTerrain_adjacent_distinct_C2_witness :
    assignTerrain adjBackward 0 ≠ assignTerrain adjBackward 1 := by
  rcases assignTerrain_adjacent_distinct_C2 adjBackward (by decide) 0 1
      (by norm_num) (by norm_num) (by decide) with h | h
  · exact h
  · exact absurd h (by decide)

/-- C10: for every adjacency list over the 18 regions, assignTerrain
returns a total terrain assignment: every region id below numRegions
gets a terrain id in [0, numTerrains), and the internal -1
placeholder never remains. -/
theorem assignTerrain_total_C10 (adj : Nat → List Int)
    (_hwf : ∀ r < 18, ∀ n ∈ adj r, 0 ≤ n ∧ n < numRegions) :
    ∀ r < 18, 0 ≤ assignTerrain adj r ∧ assignTerrain adj r < numTerrains ∧
      assignTerrain adj r ≠ -1 := by
  intro r hr
  have h := assignTerrain_range adj hr
  unfold numTerrains
  exact ⟨h.1, by omega, by omega⟩

theorem assignTerrain_total_C10_witness :
    0 ≤ assignTerrain adjEmpty 3 ∧ assignTerrain adjEmpty 3 < numTerrains ∧
      assignTerrain adjEmpty 3 ≠ -1 :=
  assignTerrain_total_C10 adjEmpty (by decide) 3 (by norm_num)

lemma adjStep_inv {regions : Nat → Int} {reg : Int} (hreg : 0 ≤ reg) (an : Int)
    {ret : Nat → List Int} (h : adjWellFormed ret) :
    adjWellFormed (adjStep regions reg ret an) := by
  intro q
  unfold adjStep
  split <;> rename_i hcase
  · rw [Function.update_apply]
    by_cases hq : q = reg.toNat
    · rw [if_pos hq]
      subst hq
      constructor
      · rw [List.mem_append]
        rintro (hmem | hmem)
        · exact (h reg.toNat).1 hmem
        · rw [List.mem_singleton] at hmem
          rw [Int.toNat_of_nonneg hreg] at hmem
          exact hcase.1 hmem.symm
      · apply List.Nodup.append (h reg.toNat).2 (List.nodup_singleton _)
        intro x hx hmem
        rw [List.mem_singleton] at hmem
        subst hmem
        exact hcase.2 hx
    · rw [if_neg hq]
      exact h q
  · exact h q

lemma adjFold_inner {regions : Nat → Int} {reg : Int} (hreg : 0 ≤ reg)
    (L : List Int) :
    ∀ ret, adjWellFormed ret → adjWellFormed (L.foldl (adjStep regions reg) ret) := by
  induction L with
  | nil => intro ret h; exact h
  | cons a L ih =>
    intro ret h
    simp only [List.foldl_cons]
    exact ih _ (adjStep_inv hreg a h)

lemma adjFold_outer {regions : Nat → Int} (htot : totalAssign regions)
    (L : List Nat) (hL : ∀ i ∈ L, i < 144) :
    ∀ ret, adjWellFormed ret →
      adjWellFormed (L.foldl
        (fun ret (i : Nat) => (aryNeighbors (i : Int)).foldl (adjStep regions (regions i)) ret)
        ret) := by
  induction L with
  | nil => intro ret h; exact h
  | cons i L ih =>
    intro ret h
    simp only [List.foldl_cons]
    apply ih (fun x hx => hL x (List.mem_cons_of_mem _ hx))
    exact adjFold_inner (htot i (hL i (List.mem_cons_self i L))).1 _ ret h

/-- C7: for every total region assignment, the adjacency list built by
regionNeighbors is well-formed: no region lists itself and no region
lists the same neighboring region twice. -/
theorem regionNeighbors_wellformed_C7 (regions : Nat → Int)
    (htot : totalAssign regions) :
    ∀ r, (r : Int) ∉ regionNeighbors regions r ∧
      (regionNeighbors regions r).Nodup := by
  intro r
  unfold regionNeighbors
  exact adjFold_outer htot (List.range 144) (fun i hi => List.mem_range.mp hi)
    _ (fun q => ⟨List.not_mem_nil _, List.nodup_nil⟩) r

theorem regionNeighbors_wellformed_C7_witness :
    ((5 : Nat) : Int) ∉ regionNeighbors (fun _ => 0) 5 ∧
      (regionNeighbors (fun _ => 0) 5).Nodup :=
  regionNeighbors_wellformed_C7 (fun _ => 0)
    (by intro a ha; unfold numRegions; norm_num) 5

end RandomMap
